import Mathlib

/-!
Shallow embedding of the MyAnimeList weekly-schedule scraper
(`src/api/index.js`).  The extraction engine is modelled as pure Lean
functions over an abstract parsed document: each scraped entry node is a
record of the texts / attributes the source queries out of the markup,
and the per-field heuristics (regex searches, JS `parseFloat`/`parseInt`,
truthiness-based fallbacks, URL normalization) are translated
operation-for-operation.  JS numbers are modelled as exact rationals
together with the non-finite values `NaN` / `Infinity`, since JSON
serialization collapses the non-finite values to `null`.
-/

namespace MalSchedule

/-- JS whitespace class used by `trim`, `\s`, and number parsing
(ASCII part; the scraper only ever sees ASCII-ish text here). -/
def isJsSpace (c : Char) : Bool :=
  c == ' ' || c == '\t' || c == '\n' || c == '\r' || c == '\x0b' || c == '\x0c'

/-- JS `String.prototype.trim`. -/
def jsTrim (s : String) : String :=
  String.mk (((s.toList.dropWhile isJsSpace).reverse.dropWhile isJsSpace).reverse)

/-- JS `a || b` on strings: the empty string is falsy. -/
def jsOr (a b : String) : String := if a = "" then b else a

/-- Truthiness of an attribute value (`undefined` and `""` are falsy). -/
def truthy : Option String → Bool
  | some s => s != ""
  | none => false

/-- JS `a || b` where `a`, `b` are attribute lookups (string or undefined). -/
def jsOrOpt (a b : Option String) : Option String :=
  bif truthy a then a else b

/-- JS `String.prototype.startsWith`. -/
def jsStartsWith (s p : String) : Bool := p.toList.isPrefixOf s.toList

/-- JS `String.prototype.includes`, on exploded strings. -/
def hasSubstr (p : List Char) : List Char → Bool
  | [] => p.isEmpty
  | c :: rest => p.isPrefixOf (c :: rest) || hasSubstr p rest

/-- Value of a digit string, most significant first. -/
def digitsToNat (ds : List Char) : Nat :=
  ds.foldl (fun n c => 10 * n + (c.toNat - 48)) 0

/-- A JS number as observed through this API: exact rational, or one of
the non-finite values (which JSON-serialize as `null`). -/
inductive JsNum where
  | nan : JsNum
  | inf : JsNum
  | negInf : JsNum
  | num : ℚ → JsNum
deriving DecidableEq

/-- Ten to an integer power, as a rational. -/
def pow10 (e : ℤ) : ℚ :=
  if 0 ≤ e then ((10 : ℚ) ^ e.toNat) else 1 / ((10 : ℚ) ^ (-e).toNat)

/-- Exponent tail of a JS decimal literal (`[+-]?digits` after `e`/`E`);
an ill-formed exponent part is not part of the parsed prefix, so it
contributes a factor of one. -/
def parseExpTail (cs : List Char) : ℤ :=
  let signed : ℤ × List Char :=
    match cs with
    | '+' :: r => (1, r)
    | '-' :: r => (-1, r)
    | r => (1, r)
  let ds := signed.2.takeWhile Char.isDigit
  if ds.isEmpty then 0 else signed.1 * (digitsToNat ds : ℤ)

/-- Exponent part of a JS decimal literal. -/
def parseExponent (cs : List Char) : ℤ :=
  match cs with
  | 'e' :: r => parseExpTail r
  | 'E' :: r => parseExpTail r
  | _ => 0

/-- Syntactic decomposition of the decimal-literal prefix a JS
`parseFloat` call consumes: sign, integer digits, fraction digits,
exponent, and whether anything numeric was found at all. -/
structure FloatParse where
  neg : Bool
  isInf : Bool
  ip : List Char
  fp : List Char
  exp : ℤ
  ok : Bool
deriving DecidableEq

/-- Scanning stage of JS `parseFloat`: skip leading whitespace, optional
sign, then either `Infinity` or the longest decimal-literal prefix;
`ok := false` records that no numeric prefix exists (`NaN`). -/
def parseFloatDecomp (s : String) : FloatParse :=
  let cs0 := s.toList.dropWhile isJsSpace
  let signed : Bool × List Char :=
    match cs0 with
    | '+' :: r => (false, r)
    | '-' :: r => (true, r)
    | r => (false, r)
  let cs := signed.2
  if "Infinity".toList.isPrefixOf cs then
    { neg := signed.1, isInf := true, ip := [], fp := [], exp := 0, ok := true }
  else
    let ip := cs.takeWhile Char.isDigit
    let rest := cs.dropWhile Char.isDigit
    let frac : List Char × List Char :=
      match rest with
      | '.' :: r => (r.takeWhile Char.isDigit, r.dropWhile Char.isDigit)
      | r => ([], r)
    { neg := signed.1, isInf := false, ip := ip, fp := frac.1
      exp := parseExponent frac.2, ok := !(ip.isEmpty && frac.1.isEmpty) }

/-- Numeric value of a decomposed literal, as an exact rational. -/
def floatValue (p : FloatParse) : JsNum :=
  bif !p.ok then JsNum.nan
  else bif p.isInf then (bif p.neg then JsNum.negInf else JsNum.inf)
  else
    JsNum.num ((bif p.neg then (-1 : ℚ) else 1) *
      ((digitsToNat p.ip : ℚ) + (digitsToNat p.fp : ℚ) / ((10 : ℚ) ^ p.fp.length)) *
      pow10 p.exp)

/-- JS `parseFloat`. -/
def parseFloatQ (s : String) : JsNum := floatValue (parseFloatDecomp s)

/-- Strings of hex digits, for `parseInt`'s `0x` mode. -/
def isHexDigit (c : Char) : Bool :=
  c.isDigit || ('a' ≤ c && c ≤ 'f') || ('A' ≤ c && c ≤ 'F')

/-- Value of a hex digit string. -/
def hexToNat (ds : List Char) : Nat :=
  ds.foldl (fun n c =>
    16 * n +
      (if c.isDigit then c.toNat - 48
       else if 'a' ≤ c && c ≤ 'f' then c.toNat - 87
       else c.toNat - 55)) 0

/-- JS `parseInt` with no radix argument: skip whitespace, optional sign,
`0x`/`0X` switches to hex, otherwise longest decimal-digit prefix;
no digits gives `NaN`. -/
def parseIntJs (s : String) : JsNum :=
  let cs0 := s.toList.dropWhile isJsSpace
  let signed : ℤ × List Char :=
    match cs0 with
    | '+' :: r => (1, r)
    | '-' :: r => (-1, r)
    | r => (1, r)
  let hex : Bool × List Char :=
    match signed.2 with
    | '0' :: 'x' :: r => (true, r)
    | '0' :: 'X' :: r => (true, r)
    | r => (false, r)
  if hex.1 then
    let ds := hex.2.takeWhile isHexDigit
    if ds.isEmpty then JsNum.nan else JsNum.num ((signed.1 * (hexToNat ds : ℤ) : ℤ) : ℚ)
  else
    let ds := hex.2.takeWhile Char.isDigit
    if ds.isEmpty then JsNum.nan else JsNum.num ((signed.1 * (digitsToNat ds : ℤ) : ℤ) : ℚ)

/-- JSON serialization of a JS number: `NaN` and the infinities become
`null`, finite values survive. -/
def jsonNumber : JsNum → Option ℚ
  | JsNum.num q => some q
  | _ => none

/-- The score value as delivered to the API client after JSON
serialization. -/
def clientScore (s : Option JsNum) : Option ℚ := s.bind jsonNumber

/-- Score rule of the scraper (`index.js` lines 63-65): sentinel or empty
text gives `null`, anything else is handed to `parseFloat`. -/
def scoreOf (scoreText : String) : Option JsNum :=
  if scoreText ≠ "" ∧ scoreText ≠ "N/A" ∧ scoreText ≠ "?" ∧ scoreText.length > 0 then
    some (parseFloatQ scoreText)
  else none

/-- Search for the first match of `/\/anime\/(\d+)\//` and return the
digit group (`index.js` line 55). -/
def malIdSearch : List Char → Option (List Char)
  | [] => none
  | c :: rest =>
    bif "/anime/".toList.isPrefixOf (c :: rest) then
      let after := (c :: rest).drop 7
      let ds := after.takeWhile Char.isDigit
      bif !ds.isEmpty && ((after.dropWhile Char.isDigit).head? == some '/') then some ds
      else malIdSearch rest
    else malIdSearch rest

/-- MAL id extraction from the title link's `href`. -/
def matchMalId (href : String) : Option String :=
  (malIdSearch href.toList).map String.mk

/-- Raster extensions whose suffix the scraper rewrites to `.webp`. -/
def rasterExts : List (List Char) := ["jpg", "jpeg", "png", "gif"].map String.toList

/-- After an extension, the regex `(\?.*)?$` accepts end-of-string or a
`?` followed by line-terminator-free text to the end. -/
def queryTailOk : List Char → Bool
  | [] => true
  | c :: tail => c == '?' && tail.all (fun ch => ch != '\n' && ch != '\r')

/-- Does `cs` (the text after a dot) complete a match of the extension
alternation followed by the optional query suffix and `$`? -/
def rasterExtMatch (cs : List Char) : Bool :=
  rasterExts.any (fun ext => ext.isPrefixOf cs && queryTailOk (cs.drop ext.length))

/-- Does the regex `/\.(jpg|jpeg|png|gif)(\?.*)?$/` match starting at the
head of `cs`? -/
def suffixMatch : List Char → Bool
  | [] => false
  | c :: rest => c == '.' && rasterExtMatch rest

/-- JS `replace` with that anchored regex: the leftmost match (which
necessarily runs to the end of the string) is replaced by `".webp"`. -/
def replaceRaster : List Char → List Char
  | [] => []
  | c :: rest =>
    bif suffixMatch (c :: rest) then ".webp".toList
    else c :: replaceRaster rest

/-- Image URL normalization (`index.js` lines 78-92): make the reference
absolute when it is protocol- or root-relative, then rewrite a raster
extension to `.webp` unless the URL already mentions `.webp`. -/
def normalizeImageUrl (u : String) : String :=
  let u1 :=
    bif jsStartsWith u "http" then u
    else bif jsStartsWith u "//" then "https:" ++ u
    else bif jsStartsWith u "/" then "https://myanimelist.net" ++ u
    else u
  bif hasSubstr ".webp".toList u1.toList then u1
  else String.mk (replaceRaster u1.toList)

/-- A URL with no colon anywhere has no scheme, hence is not absolute
under any reading of "absolute URL". -/
def isAbsoluteUrl (s : String) : Bool := s.toList.contains ':'

/-- An optional URL that is either absent or absolute. -/
def absOrNone : Option String → Bool
  | none => true
  | some u => isAbsoluteUrl u

/-- ASCII letter, the `[A-Za-z]` class. -/
def isAsciiLetter (c : Char) : Bool :=
  ('A' ≤ c && c ≤ 'Z') || ('a' ≤ c && c ≤ 'z')

/-- Tail of the date regex after the comma: `\s+\d{4}` (nothing is
anchored after the year). -/
def matchYearPart : List Char → Bool
  | [] => false
  | c :: rest =>
    isJsSpace c &&
      (match rest.dropWhile isJsSpace with
       | a :: b :: c2 :: d :: _ => a.isDigit && b.isDigit && c2.isDigit && d.isDigit
       | _ => false)

/-- Day-of-month part of the date regex: `\d{1,2},` then the year part. -/
def matchDay : List Char → Bool
  | [] => false
  | d1 :: rest =>
    d1.isDigit &&
      (match rest with
       | ',' :: rest2 => matchYearPart rest2
       | d2 :: ',' :: rest2 => d2.isDigit && matchYearPart rest2
       | _ => false)

/-- After the three letters: `\s+` then the day part. -/
def matchAfterMonth : List Char → Bool
  | [] => false
  | c :: rest => isJsSpace c && matchDay (rest.dropWhile isJsSpace)

/-- The anchored date regex `/^[A-Za-z]{3}\s+\d{1,2},\s+\d{4}/`
(`index.js` line 124). -/
def matchDate (cs : List Char) : Bool :=
  match cs with
  | a :: b :: c :: rest =>
    isAsciiLetter a && isAsciiLetter b && isAsciiLetter c && matchAfterMonth rest
  | _ => false

/-- Digit-or-question-mark class `[\d?]` of the episode regex. -/
def isDigitQ (c : Char) : Bool := c.isDigit || c == '?'

/-- First match of `/([\d?]+)\s+eps/`: the token group (`index.js`
line 112). -/
def epsSearch : List Char → Option (List Char)
  | [] => none
  | c :: rest =>
    bif isDigitQ c then
      let after := (c :: rest).dropWhile isDigitQ
      bif !(after.takeWhile isJsSpace).isEmpty &&
          "eps".toList.isPrefixOf (after.dropWhile isJsSpace) then
        some ((c :: rest).takeWhile isDigitQ)
      else epsSearch rest
    else epsSearch rest

/-- First match of `/(\d+)\s+min/`: the digit group (`index.js`
line 118). -/
def durSearch : List Char → Option (List Char)
  | [] => none
  | c :: rest =>
    bif c.isDigit then
      let after := (c :: rest).dropWhile Char.isDigit
      bif !(after.takeWhile isJsSpace).isEmpty &&
          "min".toList.isPrefixOf (after.dropWhile isJsSpace) then
        some ((c :: rest).takeWhile Char.isDigit)
      else durSearch rest
    else durSearch rest

/-- Accumulated air-date / episode-count / duration fields while scanning
the info text's lines. -/
structure InfoState where
  aired : Option String
  episodes : Option String
  duration : Option String
deriving DecidableEq

/-- One iteration of the info-line loop (`index.js` lines 108-129): a
line containing `eps` may set episodes and, independently, duration;
any other line sets the air date when it matches the date regex. -/
def processLine (st : InfoState) (line : String) : InfoState :=
  bif hasSubstr "eps".toList line.toList then
    let st1 :=
      match epsSearch line.toList with
      | some run => { st with episodes := some (String.mk run) }
      | none => st
    match durSearch line.toList with
    | some ds => { st1 with duration := some (String.mk ds ++ " min") }
    | none => st1
  else
    bif matchDate line.toList then { st with aired := some line } else st

/-- JS `split("\n")` on exploded strings. -/
def splitNl : List Char → List (List Char)
  | [] => [[]]
  | c :: rest =>
    match splitNl rest with
    | [] => [[c]]
    | l :: ls => bif c == '\n' then [] :: l :: ls else (c :: l) :: ls

/-- Split the info text on newlines, trim, and keep non-empty lines
(`index.js` line 106). -/
def infoLines (infoText : String) : List String :=
  (((splitNl infoText.toList).map String.mk).map jsTrim).filter (fun l => l ≠ "")

/-- Full info-text scan; the empty text yields all-null fields. -/
def extractInfo (infoText : String) : InfoState :=
  bif infoText != "" then (infoLines infoText).foldl processLine ⟨none, none, none⟩
  else ⟨none, none, none⟩

/-- One `.seasonal-anime` entry node, abstracted to the texts and
attributes the scraper queries out of it.  `text()` of a missing element
is the empty string; `attr(...)` of a missing attribute is `undefined`
(here `none`). -/
structure Entry where
  titleHref : Option String
  titleLinkText : String
  jsTitleText : String
  jsScoreText : String
  scoreText : String
  membersText : String
  dataSrc : Option String
  src : Option String
  dataLazySrc : Option String
  infoText : String
deriving DecidableEq

/-- The `animeData` object built per entry (`index.js` lines 132-142). -/
structure Record where
  id : Option String
  title : String
  score : Option JsNum
  members : Option JsNum
  imageUrl : Option String
  day : String
  aired : Option String
  episodes : Option String
  duration : Option String
deriving DecidableEq

/-- Title heuristic (`index.js` line 58): link text, else `.js-title`
text. -/
def titleOf (e : Entry) : String :=
  jsOr (jsTrim e.titleLinkText) (jsTrim e.jsTitleText)

/-- Score text heuristic (`index.js` lines 61-62): `.js-score` text, else
`.score` text. -/
def scoreTextOf (e : Entry) : String :=
  jsOr (jsTrim e.jsScoreText) (jsTrim e.scoreText)

/-- Remove every comma (`replace(/,/g, "")`). -/
def stripCommas (s : String) : String :=
  String.mk (s.toList.filter (fun c => c ≠ ','))

/-- Members rule (`index.js` lines 68-71). -/
def membersOf (e : Entry) : Option JsNum :=
  let t := jsTrim e.membersText
  if t ≠ "" ∧ t.length > 0 then some (parseIntJs (stripCommas t)) else none

/-- Attribute-priority chain `data-src || src || data-lazy-src`
(`index.js` line 75). -/
def imageAttrOf (e : Entry) : Option String :=
  jsOrOpt e.dataSrc (jsOrOpt e.src e.dataLazySrc)

/-- Image URL after the truthiness guard and normalization
(`index.js` lines 78-92). -/
def imageUrlOf (e : Entry) : Option String :=
  bif truthy (imageAttrOf e) then
    some (normalizeImageUrl ((imageAttrOf e).getD ""))
  else none

/-- The `animeData` record for one entry in a given day group. -/
def buildRecord (dayName : String) (e : Entry) : Record :=
  { id := matchMalId (e.titleHref.getD "")
    title := jsOr (titleOf e) "Unknown Title"
    score := scoreOf (scoreTextOf e)
    members := membersOf e
    imageUrl := jsOrOpt (imageUrlOf e) none
    day := dayName
    aired := (extractInfo (jsTrim e.infoText)).aired
    episodes := (extractInfo (jsTrim e.infoText)).episodes
    duration := (extractInfo (jsTrim e.infoText)).duration }

/-- Push guard (`index.js` lines 144-147): the record survives only with
a non-empty, non-sentinel title. -/
def extractRecord (dayName : String) (e : Entry) : Option Record :=
  let r := buildRecord dayName e
  if r.title ≠ "" ∧ r.title ≠ "Unknown Title" then some r else none

/-- The nine fixed bucket keys, in the iteration order of
`Object.keys(dayMappings)` (string-key insertion order). -/
inductive DayKey where
  | monday | tuesday | wednesday | thursday | friday | saturday | sunday
  | other | unknown
deriving DecidableEq

/-- Iteration order of the buckets. -/
def dayKeys : List DayKey :=
  [DayKey.monday, DayKey.tuesday, DayKey.wednesday, DayKey.thursday,
   DayKey.friday, DayKey.saturday, DayKey.sunday, DayKey.other, DayKey.unknown]

/-- Lower-case key string of a bucket. -/
def dayKeyStr : DayKey → String
  | DayKey.monday => "monday"
  | DayKey.tuesday => "tuesday"
  | DayKey.wednesday => "wednesday"
  | DayKey.thursday => "thursday"
  | DayKey.friday => "friday"
  | DayKey.saturday => "saturday"
  | DayKey.sunday => "sunday"
  | DayKey.other => "other"
  | DayKey.unknown => "unknown"

/-- Human-readable label of a bucket (`dayMappings` in the source). -/
def dayMappings : DayKey → String
  | DayKey.monday => "Monday"
  | DayKey.tuesday => "Tuesday"
  | DayKey.wednesday => "Wednesday"
  | DayKey.thursday => "Thursday"
  | DayKey.friday => "Friday"
  | DayKey.saturday => "Saturday"
  | DayKey.sunday => "Sunday"
  | DayKey.other => "Other"
  | DayKey.unknown => "Unknown"

/-- Class name the selector template produces for a bucket. -/
def selectorFor (k : DayKey) : String :=
  "js-seasonal-anime-list-key-" ++ dayKeyStr k

/-- A day container element as it occurs in the document: the relevant
class on it, and its entry nodes in document order. -/
structure RawContainer where
  key : String
  entries : List Entry
deriving DecidableEq

/-- The parsed document: its day containers in document order. -/
structure Document where
  containers : List RawContainer
deriving DecidableEq

/-- One output group (`{ day, anime }`). -/
structure ScheduleGroup where
  day : String
  anime : List Record
deriving DecidableEq

/-- The group the `forEach` body pushes for one bucket key, when the
selector matches at least one container. -/
def mkGroup (d : Document) (k : DayKey) : Option ScheduleGroup :=
  let matched := d.containers.filter (fun c => c.key == selectorFor k)
  if matched.length > 0 then
    some { day := dayMappings k
           anime := (matched.flatMap RawContainer.entries).filterMap
                      (extractRecord (dayMappings k)) }
  else none

/-- The whole extraction pass (`index.js` lines 22-158): iterate the
fixed bucket order, build one group per present bucket, then drop the
groups left without records. -/
def extractSchedule (d : Document) : List ScheduleGroup :=
  (dayKeys.filterMap (mkGroup d)).filter (fun g => g.anime.length > 0)

/-- The fixed bucket label order of the output. -/
def bucketLabels : List String :=
  ["Monday", "Tuesday", "Wednesday", "Thursday", "Friday", "Saturday",
   "Sunday", "Other", "Unknown"]

/-- The upstream fetch result: an HTTP status and the document the body
parses to. -/
structure FetchResponse where
  status : Nat
  body : Document
deriving DecidableEq

/-- `response.ok`: status in the 2xx range. -/
def responseOk (status : Nat) : Bool := 200 ≤ status && status ≤ 299

/-- `scrapeAnimeSchedule`: non-ok fetch throws, otherwise the extraction
runs on the body. -/
def scrapeAnimeSchedule (resp : FetchResponse) : Except String (List ScheduleGroup) :=
  if responseOk resp.status then Except.ok (extractSchedule resp.body)
  else Except.error ("Failed to fetch schedule: " ++ toString resp.status)

/-- `totalEntries` (`index.js` line 192): `reduce` of the record counts. -/
def totalEntries (s : List ScheduleGroup) : Nat :=
  s.foldl (fun total g => total + g.anime.length) 0

/-- What the `/api/anime-schedule` route hands to `c.json`: either the
success body (without the wall-clock timestamp) or the error envelope
with its HTTP status. -/
inductive ApiResult where
  | success : Nat → List ScheduleGroup → ApiResult
  | failure : Nat → String → String → ApiResult
deriving DecidableEq

/-- The `/api/anime-schedule` handler (`index.js` lines 181-206). -/
def handleScheduleRequest (resp : FetchResponse) : ApiResult :=
  match scrapeAnimeSchedule resp with
  | Except.ok s => ApiResult.success (totalEntries s) s
  | Except.error msg => ApiResult.failure 500 "Failed to fetch anime schedule" msg

/-- Two extraction passes over the same parsed document. -/
def runExtractionTwice (d : Document) : List ScheduleGroup × List ScheduleGroup :=
  (extractSchedule d, extractSchedule d)

/-- A minimal well-formed entry: linked title text and nothing else. -/
def sampleEntry : Entry :=
  { titleHref := some "/anime/5/x/", titleLinkText := "Alpha", jsTitleText := ""
    jsScoreText := "", scoreText := "", membersText := ""
    dataSrc := none, src := none, dataLazySrc := none, infoText := "" }

/-- A document with one Monday container holding `sampleEntry`. -/
def sampleDoc : Document :=
  ⟨[{ key := "js-seasonal-anime-list-key-monday", entries := [sampleEntry] }]⟩

/-- The record the extraction builds from `sampleEntry`. -/
def sampleRecord : Record :=
  { id := some "5", title := "Alpha", score := none, members := none
    imageUrl := none, day := "Monday", aired := none, episodes := none
    duration := none }

/-- The group the extraction emits for `sampleDoc`. -/
def sampleGroup : ScheduleGroup := ⟨"Monday", [sampleRecord]⟩

/-- An entry whose image reference is relative without a leading slash. -/
def relEntry : Entry :=
  { titleHref := none, titleLinkText := "Beta", jsTitleText := ""
    jsScoreText := "", scoreText := "", membersText := ""
    dataSrc := none, src := some "cover.jpg", dataLazySrc := none, infoText := "" }

/-- A document with one Friday container holding `relEntry`. -/
def relDoc : Document :=
  ⟨[{ key := "js-seasonal-anime-list-key-friday", entries := [relEntry] }]⟩

/-- The record the extraction builds from `relEntry`: its image URL keeps
the relative reference, only the extension is rewritten. -/
def relRecord : Record :=
  { id := none, title := "Beta", score := none, members := none
    imageUrl := some "cover.webp", day := "Friday", aired := none
    episodes := none, duration := none }

/-- The group the extraction emits for `relDoc`. -/
def relGroup : ScheduleGroup := ⟨"Friday", [relRecord]⟩

theorem extractRecord_title_ok (dayName : String) (e : Entry) (r : Record)
    (h : extractRecord dayName e = some r) :
    r.title ≠ "" ∧ r.title ≠ "Unknown Title" := by
  simp only [extractRecord] at h
  split at h
  · next hc => obtain rfl := Option.some.inj h; exact hc
  · exact Option.noConfusion h

theorem extractRecord_eq_build (dayName : String) (e : Entry) (r : Record)
    (h : extractRecord dayName e = some r) : r = buildRecord dayName e := by
  simp only [extractRecord] at h
  split at h
  · exact (Option.some.inj h).symm
  · exact Option.noConfusion h

theorem mem_extractSchedule_record (d : Document) (g : ScheduleGroup) (r : Record)
    (hg : g ∈ extractSchedule d) (hr : r ∈ g.anime) :
    ∃ e : Entry, (∃ c ∈ d.containers, e ∈ c.entries) ∧
      extractRecord g.day e = some r := by
  simp only [extractSchedule] at hg
  have hmem := (List.mem_filter.mp hg).1
  obtain ⟨k, hk, hmk⟩ := List.mem_filterMap.mp hmem
  simp only [mkGroup] at hmk
  split at hmk
  · obtain rfl := Option.some.inj hmk
    obtain ⟨e, he, hex⟩ := List.mem_filterMap.mp hr
    obtain ⟨c, hc, hce⟩ := List.mem_flatMap.mp he
    exact ⟨e, ⟨c, (List.mem_filter.mp hc).1, hce⟩, hex⟩
  · exact Option.noConfusion hmk

/-- C1: for every input document, every record in the output schedule has
a non-empty title different from the fallback sentinel "Unknown Title",
and every emitted group holds at least one record. -/
theorem C1_groups_wellformed (d : Document) (g : ScheduleGroup)
    (hg : g ∈ extractSchedule d) :
    (∀ r ∈ g.anime, r.title ≠ "" ∧ r.title ≠ "Unknown Title") ∧ g.anime ≠ [] := by
  constructor
  · intro r hr
    obtain ⟨e, hprov, hex⟩ := mem_extractSchedule_record d g r hg hr
    exact extractRecord_title_ok _ _ _ hex
  · intro hnil
    simp only [extractSchedule] at hg
    have hlen := (List.mem_filter.mp hg).2
    rw [hnil] at hlen
    simp at hlen

/-- C1 witness: the sample document produces a well-formed Monday group. -/
theorem C1_witness :
    (sampleRecord.title ≠ "" ∧ sampleRecord.title ≠ "Unknown Title") ∧
      sampleGroup.anime ≠ [] :=
  ⟨(C1_groups_wellformed sampleDoc sampleGroup (by decide)).1 sampleRecord (by decide),
   (C1_groups_wellformed sampleDoc sampleGroup (by decide)).2⟩

theorem totalEntries_foldl (l : List ScheduleGroup) :
    ∀ n : Nat, l.foldl (fun total g => total + g.anime.length) n
      = n + (l.map (fun g => g.anime.length)).sum := by
  induction l with
  | nil => intro n; simp
  | cons g t ih => intro n; simp [ih, Nat.add_assoc]

/-- C2: whenever the schedule endpoint answers successfully, the reported
`total` equals the sum of the record-list lengths over all groups. -/
theorem C2_total_is_sum (resp : FetchResponse) (total : Nat)
    (schedule : List ScheduleGroup)
    (h : handleScheduleRequest resp = ApiResult.success total schedule) :
    total = (schedule.map (fun g => g.anime.length)).sum := by
  by_cases hok : responseOk resp.status = true
  · simp only [handleScheduleRequest, scrapeAnimeSchedule, if_pos hok] at h
    rw [ApiResult.success.injEq] at h
    obtain ⟨h1, h2⟩ := h
    subst h2
    rw [← h1, totalEntries]
    simpa using totalEntries_foldl (extractSchedule resp.body) 0
  · simp only [handleScheduleRequest, scrapeAnimeSchedule, if_neg hok] at h
    exact ApiResult.noConfusion h

/-- C2 witness: a 200 response over the sample document reports total 1
for its single one-record group. -/
theorem C2_witness : 1 = ([sampleGroup].map (fun g => g.anime.length)).sum :=
  C2_total_is_sum ⟨200, sampleDoc⟩ 1 [sampleGroup] (by decide)

theorem mkGroup_day (d : Document) (k : DayKey) (g : ScheduleGroup)
    (h : mkGroup d k = some g) : g.day = dayMappings k := by
  simp only [mkGroup] at h
  split at h
  · obtain rfl := Option.some.inj h; rfl
  · exact Option.noConfusion h

theorem filterMap_mkGroup_sublist (d : Document) (ks : List DayKey) :
    (((ks.filterMap (mkGroup d)).map ScheduleGroup.day)).Sublist
      (ks.map dayMappings) := by
  induction ks with
  | nil => simp
  | cons k t ih =>
    cases hk : mkGroup d k with
    | none =>
      simp only [List.filterMap_cons, hk, List.map_cons]
      exact ih.cons _
    | some g =>
      simp only [List.filterMap_cons, hk, List.map_cons]
      rw [mkGroup_day d k g hk]
      exact ih.cons₂ _

/-- C3: the labels of the emitted groups always form a subsequence of the
fixed bucket order Monday..Sunday, Other, Unknown, whatever the document
holds and in whatever order its containers occur. -/
theorem C3_bucket_order (d : Document) :
    ((extractSchedule d).map ScheduleGroup.day).Sublist bucketLabels := by
  have h1 : (extractSchedule d).Sublist (dayKeys.filterMap (mkGroup d)) :=
    List.filter_sublist _
  have h3 := filterMap_mkGroup_sublist d dayKeys
  have h4 : dayKeys.map dayMappings = bucketLabels := by decide
  exact (h1.map ScheduleGroup.day).trans (h4 ▸ h3)

/-- C4: a non-2xx fetch status makes the whole request fail as one unit:
the handler returns the error envelope with status 500 and no schedule. -/
theorem C4_fetch_failure (resp : FetchResponse)
    (h : responseOk resp.status = false) :
    handleScheduleRequest resp =
      ApiResult.failure 500 "Failed to fetch anime schedule"
        ("Failed to fetch schedule: " ++ toString resp.status) := by
  simp [handleScheduleRequest, scrapeAnimeSchedule, h]

/-- C4 witness: a 404 over an empty document yields the error envelope. -/
theorem C4_witness :
    handleScheduleRequest ⟨404, ⟨[]⟩⟩ =
      ApiResult.failure 500 "Failed to fetch anime schedule"
        ("Failed to fetch schedule: " ++ toString (404 : Nat)) :=
  C4_fetch_failure ⟨404, ⟨[]⟩⟩ (by decide)

theorem parseFloat_85 : parseFloatQ "8.5" = JsNum.num ((17 : ℚ) / 2) := by
  have h : parseFloatDecomp "8.5" = ⟨false, false, ['8'], ['5'], 0, true⟩ := by decide
  have h8 : '8'.toNat = 56 := by decide
  have h5 : '5'.toNat = 53 := by decide
  rw [parseFloatQ, h]
  norm_num [floatValue, digitsToNat, pow10, h8, h5]

/-- C5: the record's score is exactly the score rule applied to the
extracted score text; the sentinels "N/A", "?" and the empty string give
null, and the numeric string "8.5" gives the decimal 8.5. -/
theorem C5_score_rules :
    (∀ dayName e, (buildRecord dayName e).score = scoreOf (scoreTextOf e)) ∧
    scoreOf "N/A" = none ∧ scoreOf "?" = none ∧ scoreOf "" = none ∧
    scoreOf "8.5" = some (JsNum.num ((17 : ℚ) / 2)) := by
  refine ⟨fun _ _ => rfl, by decide, by decide, by decide, ?_⟩
  have hcond : ("8.5" : String) ≠ "" ∧ ("8.5" : String) ≠ "N/A" ∧
      ("8.5" : String) ≠ "?" ∧ ("8.5" : String).length > 0 := by decide
  rw [scoreOf, if_pos hcond, parseFloat_85]

/-- C6: when the score text survives the sentinel guard but has no
numeric prefix, `parseFloat` yields `NaN`, and the score delivered to the
client after JSON serialization is null, not a distinct sentinel. -/
theorem C6_nan_is_null (s : String)
    (h1 : s ≠ "") (h2 : s ≠ "N/A") (h3 : s ≠ "?")
    (h4 : parseFloatQ s = JsNum.nan) :
    clientScore (scoreOf s) = none := by
  have hlen : s.length > 0 := by
    cases s with
    | mk data =>
      cases data with
      | nil => exact absurd rfl h1
      | cons c t => simp [String.length]
  rw [scoreOf, if_pos ⟨h1, h2, h3, hlen⟩, clientScore, Option.bind, h4]
  rfl

/-- C6 witness: the non-numeric score text "abc" reaches the client as
null. -/
theorem C6_witness : clientScore (scoreOf "abc") = none :=
  C6_nan_is_null "abc" (by decide) (by decide) (by decide) (by decide)

/-- C7: the root-relative and protocol-relative example references
normalize to https URLs with the raster extension rewritten to webp. -/
theorem C7_image_examples :
    normalizeImageUrl "/images/anime/123.jpg"
        = "https://myanimelist.net/images/anime/123.webp" ∧
    normalizeImageUrl "//cdn.example.com/x.png"
        = "https://cdn.example.com/x.webp" := by
  constructor <;> decide

/-- C9: the info-line scan of the example text yields the documented
fields, and for each of the three fields the last matching line of the
scan wins, overwriting whatever earlier lines had set. -/
theorem C9_info_scan :
    extractInfo "Oct 6, 2025\n 11 eps, 23 min"
        = ⟨some "Oct 6, 2025", some "11", some "23 min"⟩ ∧
    (∀ st ls l, hasSubstr "eps".toList l.toList = false →
       matchDate l.toList = true →
       ((ls ++ [l]).foldl processLine st).aired = some l) ∧
    (∀ st ls l run, hasSubstr "eps".toList l.toList = true →
       epsSearch l.toList = some run →
       ((ls ++ [l]).foldl processLine st).episodes = some (String.mk run)) ∧
    (∀ st ls l ds, hasSubstr "eps".toList l.toList = true →
       durSearch l.toList = some ds →
       ((ls ++ [l]).foldl processLine st).duration
         = some (String.mk ds ++ " min")) := by
  refine ⟨by decide, ?_, ?_, ?_⟩
  · intro st ls l h1 h2
    simp only [List.foldl_append, List.foldl_cons, List.foldl_nil, processLine,
      h1, h2, cond_false, cond_true]
  · intro st ls l run h1 h2
    simp only [List.foldl_append, List.foldl_cons, List.foldl_nil, processLine,
      h1, h2, cond_true]
    cases hd : durSearch l.toList <;> simp only [hd]
  · intro st ls l ds h1 h2
    simp only [List.foldl_append, List.foldl_cons, List.foldl_nil, processLine,
      h1, h2, cond_true]

/-- C9 witness: a later date line overwrites an earlier one. -/
theorem C9_witness :
    ((["Jan 1, 2000"] ++ ["Oct 6, 2025"]).foldl processLine
        ⟨none, none, none⟩).aired = some "Oct 6, 2025" :=
  C9_info_scan.2.1 ⟨none, none, none⟩ ["Jan 1, 2000"] "Oct 6, 2025"
    (by decide) (by decide)

/-- C10: the extraction pass is a pure function of the parsed document,
so two runs over the same input produce identical schedules. -/
theorem C10_deterministic (d : Document) :
    (runExtractionTwice d).1 = (runExtractionTwice d).2 := rfl

theorem ne_empty_of_toList_ne_nil (s : String) (h : s.toList ≠ []) : s ≠ "" := by
  intro he
  subst he
  exact h rfl

theorem toList_ne_nil_of_ne_empty (s : String) (h : s ≠ "") : s.toList ≠ [] := by
  intro hl
  apply h
  cases s with
  | mk data =>
    cases data with
    | nil => rfl
    | cons c t => exact absurd hl (by simp)

theorem toList_append (a b : String) : (a ++ b).toList = a.toList ++ b.toList := by
  cases a
  cases b
  rfl

theorem replaceRaster_ne_nil (c : Char) (l : List Char) :
    replaceRaster (c :: l) ≠ [] := by
  show (bif suffixMatch (c :: l) then ".webp".toList else c :: replaceRaster l) ≠ []
  cases suffixMatch (c :: l) <;> simp

theorem replaceRaster_cons_ne (c : Char) (l : List Char) (h : (c == '.') = false) :
    replaceRaster (c :: l) = c :: replaceRaster l := by
  show (bif suffixMatch (c :: l) then ".webp".toList else c :: replaceRaster l)
      = c :: replaceRaster l
  have hs : suffixMatch (c :: l) = false := by
    show (c == '.' && rasterExtMatch l) = false
    rw [h, Bool.false_and]
  rw [hs, cond_false]

theorem replaceRaster_https (l : List Char) :
    replaceRaster ('h' :: 't' :: 't' :: 'p' :: 's' :: ':' :: l)
      = 'h' :: 't' :: 't' :: 'p' :: 's' :: ':' :: replaceRaster l := by
  rw [replaceRaster_cons_ne 'h' _ (by decide), replaceRaster_cons_ne 't' _ (by decide),
    replaceRaster_cons_ne 't' _ (by decide), replaceRaster_cons_ne 'p' _ (by decide),
    replaceRaster_cons_ne 's' _ (by decide), replaceRaster_cons_ne ':' _ (by decide)]

theorem webpStage_ne_empty (v : String) (hv : v ≠ "") :
    (bif hasSubstr ".webp".toList v.toList then v
     else String.mk (replaceRaster v.toList)) ≠ "" := by
  cases hw : hasSubstr ".webp".toList v.toList
  · simp only [cond_false]
    apply ne_empty_of_toList_ne_nil
    have hnl := toList_ne_nil_of_ne_empty v hv
    cases hvl : v.toList with
    | nil => exact absurd hvl hnl
    | cons c t =>
      show replaceRaster (c :: t) ≠ []
      exact replaceRaster_ne_nil c t
  · simpa only [cond_true] using hv

theorem prefixStage_ne_empty (u : String) (h : u ≠ "") :
    (bif jsStartsWith u "http" then u
     else bif jsStartsWith u "//" then "https:" ++ u
     else bif jsStartsWith u "/" then "https://myanimelist.net" ++ u
     else u) ≠ "" := by
  cases jsStartsWith u "http" <;> cases jsStartsWith u "//" <;>
    cases jsStartsWith u "/" <;>
    simp only [cond_false, cond_true] <;>
    first
    | exact h
    | (apply ne_empty_of_toList_ne_nil; rw [toList_append]; simp)

theorem normalize_ne_empty (u : String) (h : u ≠ "") : normalizeImageUrl u ≠ "" :=
  webpStage_ne_empty _ (prefixStage_ne_empty u h)

theorem jsStartsWith_http_toList (s : String) (h : jsStartsWith s "http" = true) :
    ∃ t, s.toList = 'h' :: 't' :: 't' :: 'p' :: t := by
  rw [jsStartsWith] at h
  obtain ⟨t, ht⟩ := List.isPrefixOf_iff_prefix.mp h
  exact ⟨t, by rw [← ht]; rfl⟩

theorem jsStartsWith_https_toList (s : String) (h : jsStartsWith s "https:" = true) :
    ∃ t, s.toList = 'h' :: 't' :: 't' :: 'p' :: 's' :: ':' :: t := by
  rw [jsStartsWith] at h
  obtain ⟨t, ht⟩ := List.isPrefixOf_iff_prefix.mp h
  exact ⟨t, by rw [← ht]; rfl⟩

theorem jsStartsWith_slash_toList (s : String) (h : jsStartsWith s "/" = true) :
    ∃ t, s.toList = '/' :: t := by
  rw [jsStartsWith] at h
  obtain ⟨t, ht⟩ := List.isPrefixOf_iff_prefix.mp h
  exact ⟨t, by rw [← ht]; rfl⟩

theorem jsStartsWith_append (a b p : String) (h : jsStartsWith a p = true) :
    jsStartsWith (a ++ b) p = true := by
  rw [jsStartsWith] at h ⊢
  rw [toList_append]
  exact List.isPrefixOf_iff_prefix.mpr
    ((List.isPrefixOf_iff_prefix.mp h).trans (List.prefix_append _ _))

theorem startsWith_http_of_slash (u : String) (h : jsStartsWith u "/" = true) :
    jsStartsWith u "http" = false := by
  obtain ⟨t, ht⟩ := jsStartsWith_slash_toList u h
  cases hb : jsStartsWith u "http"
  · rfl
  · obtain ⟨t2, ht2⟩ := jsStartsWith_http_toList u hb
    rw [ht] at ht2
    injection ht2 with h1 h2
    exact absurd h1 (by decide)

theorem webpStage_https (v : String) (hv : jsStartsWith v "https:" = true) :
    jsStartsWith (bif hasSubstr ".webp".toList v.toList then v
      else String.mk (replaceRaster v.toList)) "https:" = true := by
  cases hw : hasSubstr ".webp".toList v.toList
  · simp only [cond_false]
    obtain ⟨t, ht⟩ := jsStartsWith_https_toList v hv
    rw [jsStartsWith]
    show ("https:".toList.isPrefixOf (replaceRaster v.toList)) = true
    rw [ht, replaceRaster_https]
    have hlist : "https:".toList = ['h', 't', 't', 'p', 's', ':'] := by decide
    rw [hlist]
    exact List.isPrefixOf_iff_prefix.mpr ⟨replaceRaster t, rfl⟩
  · simpa only [cond_true] using hv

theorem isAbsoluteUrl_of_https (s : String) (h : jsStartsWith s "https:" = true) :
    isAbsoluteUrl s = true := by
  obtain ⟨t, ht⟩ := jsStartsWith_https_toList s h
  rw [isAbsoluteUrl, ht]
  simp

theorem normalize_slash (u : String) (h : jsStartsWith u "/" = true) :
    jsStartsWith (normalizeImageUrl u) "https:" = true := by
  have h1 := startsWith_http_of_slash u h
  unfold normalizeImageUrl
  cases h2 : jsStartsWith u "//"
  · simp only [h1, h2, h, cond_false, cond_true]
    apply webpStage_https
    exact jsStartsWith_append "https://myanimelist.net" u "https:" (by decide)
  · simp only [h1, h2, cond_false, cond_true]
    apply webpStage_https
    exact jsStartsWith_append "https:" u "https:" (by decide)

theorem record_imageUrl_tied (dayName : String) (e : Entry) (r : Record)
    (h : extractRecord dayName e = some r) :
    (truthy (imageAttrOf e) = false ∧ r.imageUrl = none) ∨
    (∃ u, imageAttrOf e = some u ∧ u ≠ "" ∧
      r.imageUrl = some (normalizeImageUrl u)) := by
  have hb := extractRecord_eq_build dayName e r h
  subst hb
  have himg : (buildRecord dayName e).imageUrl = jsOrOpt (imageUrlOf e) none := rfl
  rw [himg]
  cases ha : imageAttrOf e with
  | none =>
    left
    exact ⟨rfl, by simp [imageUrlOf, ha, truthy, jsOrOpt]⟩
  | some u =>
    by_cases hu : u = ""
    · left
      subst hu
      exact ⟨by decide, by simp [imageUrlOf, ha, truthy, jsOrOpt]⟩
    · right
      refine ⟨u, rfl, hu, ?_⟩
      have h1 : truthy (some u) = true := by
        simp only [truthy]
        exact bne_iff_ne.mpr hu
      have h2 : truthy (some (normalizeImageUrl u)) = true := by
        simp only [truthy]
        exact bne_iff_ne.mpr (normalize_ne_empty u hu)
      simp only [imageUrlOf, ha, h1, cond_true, Option.getD_some, jsOrOpt, h2]

/-- C8 counterexample: the claim that every non-null imageUrl is an
absolute URL fails on `relDoc`, whose image reference "cover.jpg" is
emitted as the scheme-less "cover.webp". -/
theorem C8_counterexample :
    ¬ (∀ g ∈ extractSchedule relDoc, ∀ r ∈ g.anime,
        absOrNone r.imageUrl = true) := by
  decide

/-- C8 (amended): every emitted record's imageUrl is null exactly when
the document entry it was extracted from has no truthy image attribute,
and otherwise is the normalization of that entry's extracted non-empty
reference; the normalization yields an https-absolute URL whenever the
reference begins with a slash (root- or protocol-relative), while a
slash-less reference may stay relative (see the counterexample). -/
theorem C8_imageUrl_shape (d : Document) (g : ScheduleGroup) (r : Record)
    (hg : g ∈ extractSchedule d) (hr : r ∈ g.anime) :
    (∃ e : Entry, (∃ c ∈ d.containers, e ∈ c.entries) ∧
      extractRecord g.day e = some r ∧
      ((truthy (imageAttrOf e) = false ∧ r.imageUrl = none) ∨
        (∃ u, imageAttrOf e = some u ∧ u ≠ "" ∧
          r.imageUrl = some (normalizeImageUrl u)))) ∧
    (∀ u : String, jsStartsWith u "/" = true →
      jsStartsWith (normalizeImageUrl u) "https:" = true ∧
        isAbsoluteUrl (normalizeImageUrl u) = true) := by
  obtain ⟨e, hprov, hex⟩ := mem_extractSchedule_record d g r hg hr
  refine ⟨⟨e, hprov, hex, record_imageUrl_tied g.day e r hex⟩, fun u hu => ?_⟩
  have hs := normalize_slash u hu
  exact ⟨hs, isAbsoluteUrl_of_https _ hs⟩

/-- C8 witness: the record extracted from `relDoc` instantiates the
amended statement, here evaluated on a root-relative reference that
normalizes to an https-absolute URL. -/
theorem C8_witness :
    jsStartsWith (normalizeImageUrl "/images/a.png") "https:" = true ∧
      isAbsoluteUrl (normalizeImageUrl "/images/a.png") = true :=
  (C8_imageUrl_shape relDoc relGroup relRecord (by decide) (by decide)).2
    "/images/a.png" (by decide)

end MalSchedule
